import Mathlib

set_option linter.unusedSectionVars false
set_option linter.unusedVariables false

/-!
Shallow embedding of the Nivote self-tallying voting core
(src/builds/NivoteNIZK.js, src/builds/NivoteTlock.js,
src/ZKP/generateZKORProof.js, src/unnamed/part_002, src/unnamed/part_004).

The BLS12-381 pairing layer (mcl-wasm) is modelled as an abstract
bilinear-pairing interface `Pairing`: `Fr` is the commutative ring of
scalars, `G1` an additive commutative group that is a module over `Fr`
(mcl.mul is scalar action), `GT` a multiplicative commutative group
equipped with exponentiation by `Fr` (mcl.pow), and a pairing map `e`
that is additive in its `G1` argument and compatible with the scalar
action (bilinearity of the BLS12-381 pairing).

The SHA-256 based Fiat-Shamir hash `hashToFr` and the hash-to-curve
`hashAndMapToG2` are modelled as arbitrary function parameters, and
CSPRNG draws (`setByCSPRNG`) are explicit arguments.  Canonical
serialization round-trips (`serializeToHexStr` / `deserializeHexStr`)
are modelled as the identity, matching the spec guarantee that the
serializations are canonical and stable.  JavaScript `Map`s are
modelled as insertion-ordered association lists (`mapSet` reproduces
`Map.set`: overwrite in place for an existing key, append otherwise),
and JavaScript exceptions as `Except` results.

A small executable model `M5` (the cyclic groups of order 5) is used to
evaluate the definitions on concrete inputs.
-/

namespace Nivote

/-- Abstract interface of the mcl pairing layer exactly as used by the
source: `e` is `mcl.pairing`, `gpow` is `mcl.pow` on GT, and the axioms
are the bilinearity and exponent laws of the BLS12-381 pairing. -/
structure Pairing (Fr G1 G2 GT : Type) [CommRing Fr] [AddCommGroup G1]
    [Module Fr G1] [CommGroup GT] where
  e : G1 → G2 → GT
  gpow : GT → Fr → GT
  gpow_add : ∀ (x : GT) (a b : Fr), gpow x (a + b) = gpow x a * gpow x b
  gpow_zero : ∀ (x : GT), gpow x 0 = 1
  gpow_one : ∀ (x : GT), gpow x 1 = x
  gpow_gpow : ∀ (x : GT) (a b : Fr), gpow (gpow x a) b = gpow x (a * b)
  e_add_left : ∀ (P Q : G1) (h : G2), e (P + Q) h = e P h * e Q h
  e_smul_left : ∀ (a : Fr) (P : G1) (h : G2), e (a • P) h = gpow (e P h) a

/-- Items accepted by the duck-typed `hashToFr` at its call sites:
group elements (hashed via their canonical serialization) and strings
(hashed as UTF-8 bytes). -/
inductive HashItem (Fr GT : Type) where
  | gtEl : GT → HashItem Fr GT
  | frEl : Fr → HashItem Fr GT
  | strEl : String → HashItem Fr GT
deriving DecidableEq

abbrev VoterId := String
abbrev ElectionId := String

deriving instance DecidableEq for Except

/-- Error taxonomy of the casting path (the JavaScript throws). -/
inductive VError where
  | unknownVoter : VError
  | invalidVote : VError
  | alreadyVoted : VError
deriving DecidableEq

/-- Value stored in `this.voters` for each voter id:
`{ secretKey: sk, publicKey: mcl.mul(g, sk) }`. -/
structure VoterRec (Fr G1 : Type) where
  secretKey : Fr
  publicKey : G1
deriving DecidableEq

/-- JavaScript `Map.set` on an insertion-ordered association list:
replace the value in place when the key is present, append otherwise. -/
def mapSet {A : Type} (m : List (VoterId × A)) (k : VoterId) (v : A) :
    List (VoterId × A) :=
  if m.any (fun p => p.1 == k) then
    m.map (fun p => if p.1 == k then (k, v) else p)
  else m ++ [(k, v)]

/-- JavaScript `Map.get`. -/
def mapGet {A : Type} (m : List (VoterId × A)) (k : VoterId) : Option A :=
  (m.find? (fun p => p.1 == k)).map (fun p => p.2)

/-- JavaScript `Array.prototype.findIndex`: index of the first match,
`-1` when there is none. -/
def findIndex {α : Type} (p : α → Bool) : List α → Int
  | [] => -1
  | x :: t =>
    if p x then 0
    else
      let r := findIndex p t
      if r = -1 then -1 else r + 1

variable {Fr G1 G2 GT : Type} [CommRing Fr] [AddCommGroup G1]
  [Module Fr G1] [CommGroup GT]

/-- The `for (let k = 0; ...)` loop body of `computeGyj`: add the public
key for indices before `jIndex`, subtract it for indices after. -/
def gyjLoop (jIndex : Int) : List G1 → ℕ → G1 → G1
  | [], _, gyj => gyj
  | pk :: rest, k, gyj =>
    gyjLoop jIndex rest (k + 1)
      (if (k : Int) < jIndex then gyj + pk
       else if jIndex < (k : Int) then gyj - pk
       else gyj)

/-- `computeGyj(voterId)` (identical in all source variants): with
`jIndex` the position of `voterId` in the insertion-ordered roster,
returns the sum of earlier public keys minus the sum of later ones. -/
def computeGyj (voters : List (VoterId × VoterRec Fr G1)) (voterId : VoterId) : G1 :=
  gyjLoop (findIndex (fun p => p.1 == voterId) voters)
    (voters.map (fun p => p.2.publicKey)) 0 0

/-- The `{a0, a1, c0, c1, s0, s1}` object returned by the OR-proof
generators. -/
structure ORSigma (Fr GT : Type) where
  a0 : GT
  a1 : GT
  c0 : Fr
  c1 : Fr
  s0 : Fr
  s1 : Fr
deriving DecidableEq

/-- The envelope proof fields of the OR-proof variant
(`a0..s1` plus `pairingBase` and `votePartHex`, canonically
deserialized). -/
structure ORProofRec (Fr GT : Type) where
  a0 : GT
  a1 : GT
  c0 : Fr
  c1 : Fr
  s0 : Fr
  s1 : Fr
  pairingBase : GT
  votePart : GT
deriving DecidableEq

/-- Ballot envelope of src/builds/NivoteNIZK.js. -/
structure EnvelopeOR (Fr GT : Type) where
  electionId : ElectionId
  ballot : GT
  proof : ORProofRec Fr GT
deriving DecidableEq

/-- State of the `VotingSystem` of src/builds/NivoteNIZK.js:
voters map, ballot list, cast log, and the process-wide generator. -/
structure VotingState (Fr G1 GT : Type) where
  voters : List (VoterId × VoterRec Fr G1)
  ballots : List (EnvelopeOR Fr GT)
  castLog : List (ElectionId × List VoterId)
  g : G1
deriving DecidableEq

/-- `registerVoter(voterId)`: draw `sk` (modelled as the explicit
argument), store `{secretKey, publicKey = mcl.mul(g, sk)}` under
`voterId`, and return the public key (the source returns its hex
serialization). -/
def registerVoter (st : VotingState Fr G1 GT) (voterId : VoterId) (sk : Fr) :
    VotingState Fr G1 GT × G1 :=
  let pk := sk • st.g
  ({ st with voters := mapSet st.voters voterId ⟨sk, pk⟩ }, pk)

/-- Roster produced by registering `roster` in order into a fresh
system whose generator is `g` (each `registerVoter` appends
`(id, {sk, sk • g})` when ids are fresh). -/
def regList (g : G1) (roster : List (VoterId × Fr)) :
    List (VoterId × VoterRec Fr G1) :=
  roster.map (fun p => (p.1, ⟨p.2, p.2 • g⟩))

/-- State after `registerVoter` has been called once per entry of
`roster`, in order, starting from a fresh `VotingSystem` with
generator `g` (the constructor of src/builds/NivoteNIZK.js). -/
def mkRegState (g : G1) (roster : List (VoterId × Fr)) : VotingState Fr G1 GT :=
  roster.foldl (fun st p => (registerVoter st p.1 p.2).1) ⟨[], [], [], g⟩

/-- `generateZKORProof` of src/ZKP/generateZKORProof.js.  The three
CSPRNG draws of the taken branch are the explicit arguments: for
`vote = 0` they are `c1 := cSim`, `s1 := sSim`, `r0 := rReal`; for
`vote = 1` they are `c0 := cSim`, `s0 := sSim`, `r1 := rReal`. -/
def generateZKORProof (hashToFr : List (HashItem Fr GT) → Fr)
    (M : Pairing Fr G1 G2 GT) (vote : ℕ) (base votePart : GT)
    (electionId : String) (cSim sSim rReal : Fr) :
    Except VError (ORSigma Fr GT) :=
  if vote ≠ 0 ∧ vote ≠ 1 then .error .invalidVote
  else
    let voteFr : Fr := (vote : Fr)
    if vote = 0 then
      let c1 := cSim
      let s1 := sSim
      let a1 := M.gpow base s1 * M.gpow base c1
      let r0 := rReal
      let a0 := M.gpow base r0
      let c := hashToFr [.gtEl base, .gtEl a0, .gtEl a1, .gtEl votePart,
        .strEl electionId]
      let c0 := c - c1
      let s0 := r0 - c0 * voteFr
      .ok ⟨a0, a1, c0, c1, s0, s1⟩
    else
      let c0 := cSim
      let s0 := sSim
      let a0 := M.gpow base s0 * M.gpow votePart c0
      let r1 := rReal
      let a1 := M.gpow base r1
      let c := hashToFr [.gtEl base, .gtEl a0, .gtEl a1, .gtEl votePart,
        .strEl electionId]
      let c1 := c - c0
      let s1 := r1 - c1 * voteFr
      .ok ⟨a0, a1, c0, c1, s0, s1⟩

/-- The inlined `_generateZKORProof` of src/unnamed/part_004: identical
to `generateZKORProof` except that in the `vote = 1` branch it
reassigns `a1 = mcl.mul(mcl.pow(base, s1), mcl.pow(base, c1))` after
`s1` has been computed from the hash of the original `a1`. -/
def genZKORProofInlined (hashToFr : List (HashItem Fr GT) → Fr)
    (M : Pairing Fr G1 G2 GT) (vote : ℕ) (base votePart : GT)
    (electionId : String) (cSim sSim rReal : Fr) :
    Except VError (ORSigma Fr GT) :=
  if vote ≠ 0 ∧ vote ≠ 1 then .error .invalidVote
  else
    let voteFr : Fr := (vote : Fr)
    if vote = 0 then
      let c1 := cSim
      let s1 := sSim
      let a1 := M.gpow base s1 * M.gpow base c1
      let r0 := rReal
      let a0 := M.gpow base r0
      let c := hashToFr [.gtEl base, .gtEl a0, .gtEl a1, .gtEl votePart,
        .strEl electionId]
      let c0 := c - c1
      let s0 := r0 - c0 * voteFr
      .ok ⟨a0, a1, c0, c1, s0, s1⟩
    else
      let c0 := cSim
      let s0 := sSim
      let a0 := M.gpow base s0 * M.gpow votePart c0
      let r1 := rReal
      let a1 := M.gpow base r1
      let c := hashToFr [.gtEl base, .gtEl a0, .gtEl a1, .gtEl votePart,
        .strEl electionId]
      let c1 := c - c0
      let s1 := r1 - c1 * voteFr
      let a1 := M.gpow base s1 * M.gpow base c1
      .ok ⟨a0, a1, c0, c1, s0, s1⟩

/-- The per-ballot OR-proof check of `tallyVotes` in
src/builds/NivoteNIZK.js (lines 136-144): accept when
`a0 == base^s0 * votePart^c0`, `a1 == base^s1 * base^c1`, and
`hashToFr(base, a0, a1, votePart, electionId) == c0 + c1`. -/
def verifyORProof [DecidableEq Fr] [DecidableEq GT]
    (hashToFr : List (HashItem Fr GT) → Fr) (M : Pairing Fr G1 G2 GT)
    (electionId : String) (pf : ORProofRec Fr GT) : Bool :=
  (pf.a0 == M.gpow pf.pairingBase pf.s0 * M.gpow pf.votePart pf.c0) &&
  (pf.a1 == M.gpow pf.pairingBase pf.s1 * M.gpow pf.pairingBase pf.c1) &&
  (hashToFr [.gtEl pf.pairingBase, .gtEl pf.a0, .gtEl pf.a1,
    .gtEl pf.votePart, .strEl electionId] == pf.c0 + pf.c1)

/-- The ballot value computed by every `castVote` variant:
`mcl.mul(mcl.pow(mcl.pairing(gyj, H), sk), mcl.pow(mcl.pairing(g, H), voteFr))`. -/
def ballotValue (M : Pairing Fr G1 G2 GT) (g : G1) (Hp : G2)
    (voters : List (VoterId × VoterRec Fr G1)) (voterId : VoterId)
    (sk : Fr) (vote : ℕ) : GT :=
  M.gpow (M.e (computeGyj voters voterId) Hp) sk *
    M.gpow (M.e g Hp) ((vote : ℕ) : Fr)

/-- `castVote(voterId, vote, electionId)` of src/builds/NivoteNIZK.js:
unknown-voter check, binary-vote check, cast-log check, then push the
ballot envelope with an OR proof and log the voter. -/
def castVote (hashToFr : List (HashItem Fr GT) → Fr)
    (hashAndMapToG2 : String → G2) (M : Pairing Fr G1 G2 GT)
    (st : VotingState Fr G1 GT) (voterId : VoterId) (vote : ℕ)
    (electionId : ElectionId) (cSim sSim rReal : Fr) :
    Except VError (VotingState Fr G1 GT) :=
  if st.voters.any (fun p => p.1 == voterId) = false then .error .unknownVoter
  else if vote ≠ 0 ∧ vote ≠ 1 then .error .invalidVote
  else
    let log := (mapGet st.castLog electionId).getD []
    if voterId ∈ log then .error .alreadyVoted
    else
      match mapGet st.voters voterId with
      | none => .error .unknownVoter
      | some vr =>
        let Hp := hashAndMapToG2 electionId
        let pairing2 := M.e st.g Hp
        let votePart := M.gpow pairing2 ((vote : ℕ) : Fr)
        let ballot := ballotValue M st.g Hp st.voters voterId vr.secretKey vote
        match generateZKORProof hashToFr M vote pairing2 votePart electionId
            cSim sSim rReal with
        | .error err => .error err
        | .ok sg =>
          .ok { st with
            ballots := st.ballots ++
              [⟨electionId, ballot,
                ⟨sg.a0, sg.a1, sg.c0, sg.c1, sg.s0, sg.s1, pairing2, votePart⟩⟩],
            castLog := mapSet st.castLog electionId (log ++ [voterId]) }

/-- The Schnorr proof object `{a, s, pairingBase, votePartHex}` of
src/builds/NivoteTlock.js and src/unnamed/part_002 (hex fields
canonically deserialized). -/
structure SchnorrProofRec (Fr GT : Type) where
  a : GT
  s : Fr
  pairingBase : GT
  votePart : GT
deriving DecidableEq

/-- Ballot envelope of src/builds/NivoteTlock.js. -/
structure EnvelopeS (Fr GT : Type) where
  electionId : ElectionId
  ballot : GT
  proof : SchnorrProofRec Fr GT
deriving DecidableEq

/-- State of the `VotingSystem` of src/builds/NivoteTlock.js (the
time-lock wrapper and `encryptedTallies` are outside the core per the
spec and do not affect the modelled operations). -/
structure TlockState (Fr G1 GT : Type) where
  voters : List (VoterId × VoterRec Fr G1)
  ballots : List (EnvelopeS Fr GT)
  g : G1
deriving DecidableEq

/-- `castVote(voterId, vote, electionId)` of src/builds/NivoteTlock.js:
unknown-voter check, binary-vote check, then push the ballot envelope
with a Schnorr proof `a = B^r`, `c = hashToFr(B, a, votePart)`,
`s = r - c * vote`.  The nonce `r` is the explicit argument. -/
def castVoteTlock (hashToFr : List (HashItem Fr GT) → Fr)
    (hashAndMapToG2 : String → G2) (M : Pairing Fr G1 G2 GT)
    (st : TlockState Fr G1 GT) (voterId : VoterId) (vote : ℕ)
    (electionId : ElectionId) (r : Fr) :
    Except VError (TlockState Fr G1 GT) :=
  if st.voters.any (fun p => p.1 == voterId) = false then .error .unknownVoter
  else if vote ≠ 0 ∧ vote ≠ 1 then .error .invalidVote
  else
    match mapGet st.voters voterId with
    | none => .error .unknownVoter
    | some vr =>
      let Hp := hashAndMapToG2 electionId
      let pairing2 := M.e st.g Hp
      let votePart := M.gpow pairing2 ((vote : ℕ) : Fr)
      let ballot := ballotValue M st.g Hp st.voters voterId vr.secretKey vote
      let a := M.gpow pairing2 r
      let c := hashToFr [.gtEl pairing2, .gtEl a, .gtEl votePart]
      let s := r - c * ((vote : ℕ) : Fr)
      .ok { st with
        ballots := st.ballots ++ [⟨electionId, ballot, ⟨a, s, pairing2, votePart⟩⟩] }

/-- The per-ballot Schnorr check of the tally path
(src/builds/NivoteTlock.js lines 146-149, src/unnamed/part_002 lines
112-114): recompute `c = hashToFr(base, a, votePart)` and accept when
`base^s * votePart^c == a`. -/
def verifySchnorrProof [DecidableEq GT]
    (hashToFr : List (HashItem Fr GT) → Fr) (M : Pairing Fr G1 G2 GT)
    (pf : SchnorrProofRec Fr GT) : Bool :=
  M.gpow pf.pairingBase pf.s *
      M.gpow pf.votePart
        (hashToFr [.gtEl pf.pairingBase, .gtEl pf.a, .gtEl pf.votePart])
    == pf.a

/-- Per-election ballot entry `{ ballot, proof }` of src/unnamed/part_002
(its ballot store is a map electionId to list of these). -/
structure Ballot2 (Fr GT : Type) where
  ballot : GT
  proof : SchnorrProofRec Fr GT
deriving DecidableEq

/-- State of the `VotingSystem` of src/unnamed/part_002 (the
`tlockDelays` config only drives a sleep and is dropped). -/
structure Part2State (Fr G1 GT : Type) where
  voters : List (VoterId × VoterRec Fr G1)
  ballots : List (ElectionId × List (Ballot2 Fr GT))
  g : G1
deriving DecidableEq

/-- `encryptTally(electionId)` of src/unnamed/part_002: starting from
`R = 1` in GT, verify each stored ballot proof of the election and
multiply the verified ballots into `R`; return `{R, base}` with
`base = e(g, HashToG2(electionId))`. -/
def encryptTally [DecidableEq GT] (hashToFr : List (HashItem Fr GT) → Fr)
    (hashAndMapToG2 : String → G2) (M : Pairing Fr G1 G2 GT)
    (st : Part2State Fr G1 GT) (electionId : ElectionId) : GT × GT :=
  let Hp := hashAndMapToG2 electionId
  let base := M.e st.g Hp
  let entries := (mapGet st.ballots electionId).getD []
  let R := entries.foldl
    (fun R b => if verifySchnorrProof hashToFr M b.proof then R * b.ballot else R) 1
  (R, base)

/-- Result of `decryptTally`: an integer tally or the string sentinel
`"Tally Failed"`. -/
inductive TallyResult where
  | count : ℕ → TallyResult
  | failed : TallyResult
deriving DecidableEq

/-- The `for (let i = 0; i <= maxVotes; i++)` discrete-log search of
`decryptTally`, with `fuel` remaining iterations. -/
def dlogSearch [DecidableEq GT] (M : Pairing Fr G1 G2 GT) (R base : GT) :
    ℕ → ℕ → TallyResult
  | _, 0 => .failed
  | i, fuel + 1 =>
    if M.gpow base ((i : ℕ) : Fr) = R then .count i
    else dlogSearch M R base (i + 1) fuel

/-- `decryptTally(electionId, {R, base}, maxVotes)` of
src/unnamed/part_002: search `i = 0, 1, ..., maxVotes` for
`base^i == R` and return the first match, else the sentinel.  The
time-lock sleep only delays the result and is dropped. -/
def decryptTally [DecidableEq GT] (M : Pairing Fr G1 G2 GT) (R base : GT)
    (maxVotes : ℕ) : TallyResult :=
  dlogSearch M R base 0 (maxVotes + 1)

/-! Concrete executable model: the pairing interface instantiated on the
cyclic groups of order 5 (`G1 = G2 = Fr = ZMod 5`, `GT` the same group
written multiplicatively, pairing the product in the exponent).  It is
used to evaluate the definitions at concrete inputs. -/

/-- Target group of the concrete model: the order-5 cyclic group,
written multiplicatively. -/
abbrev GT5 := Multiplicative (ZMod 5)

/-- Concrete pairing model on the order-5 cyclic groups. -/
def M5 : Pairing (ZMod 5) (ZMod 5) (ZMod 5) GT5 where
  e := fun P h => Multiplicative.ofAdd (P * h)
  gpow := fun x a => x ^ a.val
  gpow_add := by decide
  gpow_zero := by decide
  gpow_one := by decide
  gpow_gpow := by decide
  e_add_left := by decide
  e_smul_left := by decide

/-- Concrete stand-in for the SHA-256 based `hashToFr` (the embedding
treats the hash as an arbitrary function; any concrete choice is a
valid instance). -/
def hash5 : List (HashItem (ZMod 5) GT5) → ZMod 5 := fun _ => 0

/-- Concrete stand-in for `mcl.hashAndMapToG2`. -/
def hashG2five : String → ZMod 5 := fun _ => 1

/-- Concrete two-voter roster (ids with secret keys drawn as 1 and 2). -/
def rosterTwo : List (VoterId × ZMod 5) := [("A", 1), ("B", 2)]

/-- Concrete vote assignment for `rosterTwo`. -/
def votesTwo : List ℕ := [1, 0]

/-- Concrete system after registering `rosterTwo` (generator 1). -/
def stTwoVoters : VotingState (ZMod 5) (ZMod 5) GT5 := mkRegState 1 rosterTwo

/-- Concrete system after registering the single voter id with secret
key 1 (generator 1). -/
def stOneVoter : VotingState (ZMod 5) (ZMod 5) GT5 := mkRegState 1 [("A", 1)]

/-- Forged OR-proof transcript in the concrete model, built by the
generic simulation: with `B` a generator, pick `votePart := B ^ 2`,
`c0 := 1`, `s0 := 0`, `a0 := B ^ s0 * votePart ^ c0`, `r1 := 0`,
`a1 := B ^ r1`, then `c1 := hash - c0` and `s1 := r1 - c1`. -/
def pfForged : ORProofRec (ZMod 5) GT5 :=
  { a0 := Multiplicative.ofAdd 2, a1 := Multiplicative.ofAdd 0,
    c0 := 1, c1 := 4, s0 := 0, s1 := 1,
    pairingBase := Multiplicative.ofAdd 1, votePart := Multiplicative.ofAdd 2 }

/-- Concrete one-voter system of the Tlock variant (secret key 2,
public key 2, generator 1). -/
def stTlockOne : TlockState (ZMod 5) (ZMod 5) GT5 := ⟨[("A", ⟨2, 2⟩)], [], 1⟩

/-- The state produced by casting vote 1 with nonce 3 in `stTlockOne`. -/
def stTlockCast : TlockState (ZMod 5) (ZMod 5) GT5 :=
  ⟨[("A", ⟨2, 2⟩)],
    [⟨"E", Multiplicative.ofAdd 1,
      ⟨Multiplicative.ofAdd 3, 3, Multiplicative.ofAdd 1, Multiplicative.ofAdd 1⟩⟩], 1⟩

/-- A concrete ballot entry of the part_002 store. -/
def ballotX : Ballot2 (ZMod 5) GT5 :=
  ⟨Multiplicative.ofAdd 1,
    ⟨Multiplicative.ofAdd 0, 0, Multiplicative.ofAdd 1, Multiplicative.ofAdd 0⟩⟩

/-- A second concrete ballot entry of the part_002 store. -/
def ballotY : Ballot2 (ZMod 5) GT5 :=
  ⟨Multiplicative.ofAdd 2,
    ⟨Multiplicative.ofAdd 0, 1, Multiplicative.ofAdd 1, Multiplicative.ofAdd 1⟩⟩

/-- Concrete part_002 state holding the two ballots in one order. -/
def stPartA : Part2State (ZMod 5) (ZMod 5) GT5 := ⟨[], [("E", [ballotX, ballotY])], 1⟩

/-- Concrete part_002 state holding the same two ballots in the other
order. -/
def stPartB : Part2State (ZMod 5) (ZMod 5) GT5 := ⟨[], [("E", [ballotY, ballotX])], 1⟩

/-! Derived laws of the pairing interface. -/

namespace Pairing

variable {Fr G1 G2 GT : Type} [CommRing Fr] [AddCommGroup G1]
  [Module Fr G1] [CommGroup GT]

variable (M : Pairing Fr G1 G2 GT)

theorem gpow_sub_mul (x : GT) (a b : Fr) :
    M.gpow x (a - b) * M.gpow x b = M.gpow x a := by
  rw [← M.gpow_add, sub_add_cancel]

theorem gpow_one_left (a : Fr) : M.gpow (1 : GT) a = 1 := by
  conv_lhs => rw [← M.gpow_zero (1 : GT)]
  rw [M.gpow_gpow, zero_mul, M.gpow_zero]

theorem e_zero_left (h : G2) : M.e (0 : G1) h = 1 := by
  have k := M.e_add_left 0 0 h
  rw [add_zero] at k
  exact (self_eq_mul_right.mp k)

theorem prod_map_gpow_e {α : Type} (HP : G2) (w : α → Fr) (f : α → G1)
    (l : List α) :
    (l.map (fun x => M.gpow (M.e (f x) HP) (w x))).prod
      = M.e ((l.map (fun x => w x • f x)).sum) HP := by
  induction l with
  | nil => simp [M.e_zero_left]
  | cons x t ih => simp [M.e_add_left, M.e_smul_left, ih]

theorem prod_map_gpow {α : Type} (B : GT) (w : α → Fr) (l : List α) :
    (l.map (fun x => M.gpow B (w x))).prod = M.gpow B ((l.map w).sum) := by
  induction l with
  | nil => simp [M.gpow_zero]
  | cons x t ih => simp [M.gpow_add, ih]

end Pairing

/-! Lemmas about the roster primitives. -/

theorem findIndex_eq_neg_one {α : Type} (p : α → Bool) (l : List α)
    (h : ∀ x ∈ l, p x = false) : findIndex p l = -1 := by
  induction l with
  | nil => rfl
  | cons x t ih =>
    simp only [findIndex, h x (by simp)]
    rw [ih (fun y hy => h y (by simp [hy]))]
    simp

theorem findIndex_append {α : Type} (p : α → Bool) (pre : List α) (x : α)
    (rest : List α) (hpre : ∀ y ∈ pre, p y = false) (hx : p x = true) :
    findIndex p (pre ++ x :: rest) = (pre.length : Int) := by
  induction pre with
  | nil => simp [findIndex, hx]
  | cons y t ih =>
    have hy : p y = false := hpre y (by simp)
    have ht := ih (fun z hz => hpre z (by simp [hz]))
    have hne : ((t.length : Int)) ≠ -1 := by omega
    simp only [List.cons_append, findIndex, hy, List.append_eq, ht, hne,
      Bool.false_eq_true, if_false, List.length_cons]
    push_cast
    ring

variable {Fr G1 G2 GT : Type} [CommRing Fr] [AddCommGroup G1]
  [Module Fr G1] [CommGroup GT]

theorem gyjLoop_of_lt (jIndex : Int) (l : List G1) (k : ℕ) (acc : G1)
    (h : jIndex < (k : Int)) : gyjLoop jIndex l k acc = acc - l.sum := by
  induction l generalizing k acc with
  | nil => simp [gyjLoop]
  | cons pk rest ih =>
    have h1 : ¬((k : Int) < jIndex) := by omega
    have h2 : jIndex < ((k + 1 : ℕ) : Int) := by push_cast; omega
    simp only [gyjLoop, h1, if_false, h, if_true]
    rw [ih (k + 1) _ h2]
    rw [List.sum_cons]
    abel

theorem gyjLoop_spec (l : List G1) (d k : ℕ) (acc : G1) :
    gyjLoop ((k + d : ℕ) : Int) l k acc
      = acc + (l.take d).sum - (l.drop (d + 1)).sum := by
  induction l generalizing d k acc with
  | nil => simp [gyjLoop]
  | cons pk rest ih =>
    cases d with
    | zero =>
      have h1 : ¬((k : Int) < ((k + 0 : ℕ) : Int)) := by push_cast; omega
      have h2 : ¬(((k + 0 : ℕ) : Int) < (k : Int)) := by push_cast; omega
      simp only [gyjLoop, h1, if_false, h2]
      rw [gyjLoop_of_lt _ _ _ _ (by push_cast; omega)]
      simp
    | succ d =>
      have h1 : (k : Int) < ((k + (d + 1) : ℕ) : Int) := by push_cast; omega
      simp only [gyjLoop, h1, if_true]
      have hcast : ((k + (d + 1) : ℕ) : Int) = (((k + 1) + d : ℕ) : Int) := by
        push_cast; ring
      rw [hcast, ih d (k + 1) (acc + pk)]
      simp only [List.take_succ_cons, List.sum_cons, List.drop_succ_cons]
      abel

theorem computeGyj_append (pre : List (VoterId × VoterRec Fr G1))
    (voterId : VoterId) (vr : VoterRec Fr G1)
    (post : List (VoterId × VoterRec Fr G1))
    (hpre : ∀ q ∈ pre, q.1 ≠ voterId) :
    computeGyj (pre ++ (voterId, vr) :: post) voterId
      = (pre.map (fun q => q.2.publicKey)).sum
        - (post.map (fun q => q.2.publicKey)).sum := by
  unfold computeGyj
  rw [findIndex_append (fun p => p.1 == voterId) pre _ post
    (fun y hy => by simpa using hpre y hy) (by simp)]
  rw [show ((pre.length : Int)) = (((0 + pre.length : ℕ)) : Int) by push_cast; ring]
  rw [List.map_append, List.map_cons, gyjLoop_spec]
  have hA : ((pre.map (fun q => q.2.publicKey)) ++
      vr.publicKey :: (post.map (fun q => q.2.publicKey))).take pre.length
        = pre.map (fun q => q.2.publicKey) :=
    List.take_left' (by simp)
  have hB : ((pre.map (fun q => q.2.publicKey)) ++
      vr.publicKey :: (post.map (fun q => q.2.publicKey))).drop (pre.length + 1)
        = post.map (fun q => q.2.publicKey) := by
    have h : (pre.map (fun q => q.2.publicKey)) ++
        vr.publicKey :: (post.map (fun q => q.2.publicKey))
          = ((pre.map (fun q => q.2.publicKey)) ++ [vr.publicKey]) ++
            (post.map (fun q => q.2.publicKey)) := by simp
    rw [h]
    exact List.drop_left' (by simp)
  rw [hA, hB]
  abel

theorem mapSet_of_fresh {A : Type} (m : List (VoterId × A)) (k : VoterId)
    (v : A) (h : ∀ q ∈ m, q.1 ≠ k) : mapSet m k v = m ++ [(k, v)] := by
  have hany : m.any (fun p => p.1 == k) = false := by
    simp only [List.any_eq_false]
    intro p hp
    simpa using h p hp
  unfold mapSet
  rw [hany]
  simp

theorem regFold_spec (roster : List (VoterId × Fr))
    (st : VotingState Fr G1 GT)
    (hfresh : ∀ p ∈ roster, ∀ q ∈ st.voters, q.1 ≠ p.1)
    (hnd : (roster.map Prod.fst).Nodup) :
    roster.foldl (fun s p => (registerVoter s p.1 p.2).1) st
      = { st with voters := st.voters ++ regList st.g roster } := by
  induction roster generalizing st with
  | nil => simp [regList]
  | cons x rest ih =>
    obtain ⟨id, sk⟩ := x
    have hnd1 : (id :: rest.map Prod.fst).Nodup := by simpa using hnd
    have hid : id ∉ rest.map Prod.fst := (List.nodup_cons.mp hnd1).1
    have hstep : (registerVoter st id sk).1
        = { st with voters := st.voters ++ [(id, ⟨sk, sk • st.g⟩)] } := by
      show ({ st with voters := mapSet st.voters id ⟨sk, sk • st.g⟩ } :
        VotingState Fr G1 GT) = _
      rw [mapSet_of_fresh st.voters id _ (fun q hq => hfresh (id, sk) (by simp) q hq)]
    have hrec := ih { st with voters := st.voters ++ [(id, ⟨sk, sk • st.g⟩)] }
      (by
        intro p hp q hq
        rcases List.mem_append.mp hq with hq1 | hq2
        · exact hfresh p (by simp [hp]) q hq1
        · have hq3 : q = (id, ⟨sk, sk • st.g⟩) := by simpa using hq2
          subst hq3
          intro e
          exact hid (by
            rw [show id = p.1 from e]
            exact List.mem_map_of_mem Prod.fst hp))
      ((List.nodup_cons.mp hnd1).2)
    simp only [List.foldl_cons, hstep, hrec]
    simp [regList, List.append_assoc]

theorem mkRegState_spec (g : G1) (roster : List (VoterId × Fr))
    (hnd : (roster.map Prod.fst).Nodup) :
    (mkRegState g roster : VotingState Fr G1 GT)
      = ⟨regList g roster, [], [], g⟩ := by
  unfold mkRegState
  rw [regFold_spec roster ⟨[], [], [], g⟩ (by intro p hp q hq; simp at hq) hnd]
  simp

theorem smul_map_smul_sum (g : G1) (c : Fr) (l : List Fr) :
    c • ((l.map (fun a => a • g)).sum) = ((l.map (fun a => c * a)).sum) • g := by
  induction l with
  | nil => simp
  | cons a t ih => simp [smul_add, smul_smul, ih, add_smul]

theorem sum_smul_comm_smul (g : G1) (c : Fr) (l : List Fr) :
    l.sum • (c • g) = ((l.map (fun a => c * a)).sum) • g := by
  rw [smul_smul]
  have h1 : l.map (fun a => c * a) = l.map (fun a => a * c) :=
    List.map_congr_left (fun a _ => mul_comm c a)
  rw [h1]
  have h2 : (l.map (fun a => a * c)).sum = l.sum * c := by
    have := List.sum_map_mul_right l (fun a => a) c
    simpa using this
  rw [h2]

theorem weightedGyj_aux (g : G1) (todo : List (VoterId × Fr)) :
    ∀ (pre : List (VoterId × Fr)),
    ((pre ++ todo).map Prod.fst).Nodup →
    (todo.map (fun p =>
        p.2 • computeGyj (regList g (pre ++ todo) : List (VoterId × VoterRec Fr G1)) p.1)).sum
      = ((todo.map Prod.snd).sum) • ((pre.map (fun p => p.2 • g)).sum) := by
  induction todo with
  | nil => intro pre h; simp
  | cons x rest ih =>
    intro pre hnd
    obtain ⟨id, sk⟩ := x
    have hsplit : (regList g (pre ++ (id, sk) :: rest) : List (VoterId × VoterRec Fr G1))
        = regList g pre ++ (id, (⟨sk, sk • g⟩ : VoterRec Fr G1)) :: regList g rest := by
      simp [regList]
    have hdisj : ∀ a ∈ pre.map Prod.fst, a ≠ id := by
      have h1 : (pre.map Prod.fst ++ id :: rest.map Prod.fst).Nodup := by
        simpa using hnd
      intro a ha he
      subst he
      exact (List.disjoint_of_nodup_append h1) ha (by simp)
    have hpre : ∀ q ∈ (regList g pre : List (VoterId × VoterRec Fr G1)), q.1 ≠ id := by
      intro q hq
      simp only [regList, List.mem_map] at hq
      obtain ⟨p, hp, rfl⟩ := hq
      exact hdisj p.1 (List.mem_map_of_mem Prod.fst hp)
    have hY : computeGyj (regList g (pre ++ (id, sk) :: rest)) id
        = ((pre.map (fun p => p.2 • g)).sum) - ((rest.map (fun p => p.2 • g)).sum) := by
      rw [hsplit, computeGyj_append _ _ _ _ hpre]
      simp [regList, List.map_map, Function.comp_def]
    have hassoc : pre ++ (id, sk) :: rest = (pre ++ [(id, sk)]) ++ rest := by simp
    have hrec := ih (pre ++ [(id, sk)]) (by rw [← hassoc]; exact hnd)
    rw [← hassoc] at hrec
    simp only [List.map_cons, List.sum_cons, hY, hrec]
    have hkey : sk • ((rest.map (fun p => p.2 • g)).sum)
        = ((rest.map Prod.snd).sum) • (sk • g) := by
      have e1 : rest.map (fun p => p.2 • g)
          = (rest.map Prod.snd).map (fun a => a • g) := by
        simp [List.map_map, Function.comp_def]
      rw [e1, smul_map_smul_sum, sum_smul_comm_smul]
    have e2 : (pre ++ [(id, sk)]).map (fun p => p.2 • g)
        = pre.map (fun p => p.2 • g) ++ [sk • g] := by simp
    rw [e2]
    rw [List.sum_append]
    rw [smul_sub, add_smul, smul_add, hkey]
    simp [List.sum_cons]

theorem weightedGyj_zero (g : G1) (roster : List (VoterId × Fr))
    (hnd : (roster.map Prod.fst).Nodup) :
    (roster.map (fun p =>
        p.2 • computeGyj (regList g roster : List (VoterId × VoterRec Fr G1)) p.1)).sum
      = 0 := by
  have := weightedGyj_aux g roster [] (by simpa using hnd)
  simpa using this

theorem mkRegState_voters (g : G1) (roster : List (VoterId × Fr))
    (hnd : (roster.map Prod.fst).Nodup) :
    (mkRegState g roster : VotingState Fr G1 GT).voters = regList g roster := by
  rw [mkRegState_spec g roster hnd]

/-! Claim theorems. -/

/-- Claim C2, counterexample: in the concrete model, for the two-voter
roster registered in order with secret keys 1 and 2 (so with honestly
generated public keys), the sum over the registered voter ids of
`computeGyj` is not the identity of G1: it evaluates to 4, because the
roster yields Y_A = -pk_B = 3 and Y_B = pk_A = 1. -/
theorem claim_C2_counterexample :
    1 ≤ stTwoVoters.voters.length ∧
      (stTwoVoters.voters.map (fun p => computeGyj stTwoVoters.voters p.1)).sum ≠ 0 := by
  decide

/-- Claim C2 (amended): for every roster of size n ≥ 1 registered in
order via `registerVoter` (so each public key is sk • g), the
secret-key-weighted sum of the cancelling keys,
Σ_j sk_j • computeGyj(id_j), is the identity of G1; this weighted sum
is the cancellation that makes the tally self-cancelling. -/
theorem claim_C2_key_cancellation (g : G1) (roster : List (VoterId × Fr))
    (h1 : 1 ≤ roster.length) (hnd : (roster.map Prod.fst).Nodup) :
    ((mkRegState g roster : VotingState Fr G1 GT).voters.map
        (fun p => p.2.secretKey •
          computeGyj (mkRegState g roster : VotingState Fr G1 GT).voters p.1)).sum
      = 0 := by
  rw [mkRegState_voters g roster hnd]
  have hmap : (regList g roster : List (VoterId × VoterRec Fr G1)).map
      (fun p => p.2.secretKey •
        computeGyj (regList g roster : List (VoterId × VoterRec Fr G1)) p.1)
    = roster.map (fun p =>
        p.2 • computeGyj (regList g roster : List (VoterId × VoterRec Fr G1)) p.1) := by
    simp [regList, List.map_map, Function.comp_def]
  rw [hmap]
  exact weightedGyj_zero g roster hnd

/-- Claim C2, witness: the amended cancellation evaluated on the
concrete two-voter roster. -/
theorem claim_C2_witness :
    (1 ≤ rosterTwo.length ∧ (rosterTwo.map Prod.fst).Nodup)
    ∧ ((mkRegState (1 : ZMod 5) rosterTwo : VotingState (ZMod 5) (ZMod 5) GT5).voters.map
        (fun p => p.2.secretKey •
          computeGyj (mkRegState (1 : ZMod 5) rosterTwo :
            VotingState (ZMod 5) (ZMod 5) GT5).voters p.1)).sum = 0 :=
  ⟨by decide, claim_C2_key_cancellation 1 rosterTwo (by decide) (by decide)⟩

/-- Claim C1: homomorphic tally.  For every roster of n ≥ 1 registered
voters, every binary vote assignment and every election id, the product
in GT of the ballots produced by castVote (each being
`e(Y_j, H)^(sk_j) * e(g, H)^(v_j)` with `Y_j = computeGyj(id_j)` and
`H = HashToG2(electionId)`) equals `B ^ (v_1 + ... + v_n)` where
`B = e(g, H)`. -/
theorem claim_C1_homomorphic_tally (hashAndMapToG2 : String → G2)
    (M : Pairing Fr G1 G2 GT) (g : G1) (roster : List (VoterId × Fr))
    (votes : List ℕ) (electionId : String)
    (h1 : 1 ≤ roster.length) (hlen : votes.length = roster.length)
    (hnd : (roster.map Prod.fst).Nodup)
    (hv : ∀ v ∈ votes, v = 0 ∨ v = 1) :
    ((roster.zip votes).map (fun q =>
        ballotValue M g (hashAndMapToG2 electionId)
          (mkRegState g roster : VotingState Fr G1 GT).voters q.1.1 q.1.2 q.2)).prod
      = M.gpow (M.e g (hashAndMapToG2 electionId)) ((votes.sum : ℕ) : Fr) := by
  rw [mkRegState_voters g roster hnd]
  unfold ballotValue
  rw [List.prod_map_mul]
  have hfst : ((roster.zip votes).map (fun q =>
      M.gpow (M.e (computeGyj (regList g roster : List (VoterId × VoterRec Fr G1)) q.1.1)
        (hashAndMapToG2 electionId)) q.1.2)).prod = 1 := by
    have hzip : (roster.zip votes).map (fun q : (VoterId × Fr) × ℕ =>
        q.1.2 • computeGyj (regList g roster : List (VoterId × VoterRec Fr G1)) q.1.1)
      = roster.map (fun p =>
          p.2 • computeGyj (regList g roster : List (VoterId × VoterRec Fr G1)) p.1) := by
      have hz1 : (roster.zip votes).map (fun q : (VoterId × Fr) × ℕ =>
          q.1.2 • computeGyj (regList g roster : List (VoterId × VoterRec Fr G1)) q.1.1)
        = ((roster.zip votes).map Prod.fst).map (fun p =>
            p.2 • computeGyj (regList g roster : List (VoterId × VoterRec Fr G1)) p.1) := by
        simp [List.map_map, Function.comp_def]
      rw [hz1, List.map_fst_zip roster votes (by omega)]
    have e3 := M.prod_map_gpow_e (hashAndMapToG2 electionId)
      (fun q : (VoterId × Fr) × ℕ => q.1.2)
      (fun q : (VoterId × Fr) × ℕ =>
        computeGyj (regList g roster : List (VoterId × VoterRec Fr G1)) q.1.1)
      (roster.zip votes)
    rw [hzip, weightedGyj_zero g roster hnd, M.e_zero_left] at e3
    exact e3
  have hsnd : ((roster.zip votes).map (fun q =>
      M.gpow (M.e g (hashAndMapToG2 electionId)) ((q.2 : ℕ) : Fr))).prod
      = M.gpow (M.e g (hashAndMapToG2 electionId)) ((votes.sum : ℕ) : Fr) := by
    have hz2 : (roster.zip votes).map (fun q : (VoterId × Fr) × ℕ => ((q.2 : ℕ) : Fr))
        = ((roster.zip votes).map Prod.snd).map (fun v : ℕ => ((v : ℕ) : Fr)) := by
      simp [List.map_map, Function.comp_def]
    have e5 := M.prod_map_gpow (M.e g (hashAndMapToG2 electionId))
      (fun q : (VoterId × Fr) × ℕ => ((q.2 : ℕ) : Fr)) (roster.zip votes)
    rw [hz2, List.map_snd_zip roster votes (by omega),
      (Nat.cast_list_sum votes).symm] at e5
    exact e5
  rw [hfst, hsnd, one_mul]

/-- Claim C1, witness: the homomorphic-tally identity evaluated on the
concrete two-voter roster with votes (1, 0). -/
theorem claim_C1_witness :
    (1 ≤ rosterTwo.length ∧ votesTwo.length = rosterTwo.length
      ∧ (rosterTwo.map Prod.fst).Nodup ∧ ∀ v ∈ votesTwo, v = 0 ∨ v = 1)
    ∧ ((rosterTwo.zip votesTwo).map (fun q =>
        ballotValue M5 1 (hashG2five "E")
          (mkRegState (1 : ZMod 5) rosterTwo :
            VotingState (ZMod 5) (ZMod 5) GT5).voters q.1.1 q.1.2 q.2)).prod
      = M5.gpow (M5.e 1 (hashG2five "E")) ((votesTwo.sum : ℕ) : ZMod 5) :=
  ⟨by decide, claim_C1_homomorphic_tally hashG2five M5 1 rosterTwo votesTwo "E"
    (by decide) (by decide) (by decide) (by decide)⟩

/-- Claim C4: OR-proof completeness.  For every vote in 01, every
election id, every base `B` with `votePart = B ^ vote`, and every
choice of the prover randomness, the tuple emitted by
`generateZKORProof` passes all three verification checks of
`tallyVotes`. -/
theorem claim_C4_or_proof_complete [DecidableEq Fr] [DecidableEq GT]
    (hashToFr : List (HashItem Fr GT) → Fr) (M : Pairing Fr G1 G2 GT)
    (B : GT) (electionId : String) (vote : ℕ) (cSim sSim rReal : Fr)
    (sg : ORSigma Fr GT)
    (hv : vote = 0 ∨ vote = 1)
    (hsg : generateZKORProof hashToFr M vote B (M.gpow B ((vote : ℕ) : Fr))
      electionId cSim sSim rReal = .ok sg) :
    verifyORProof hashToFr M electionId
      ⟨sg.a0, sg.a1, sg.c0, sg.c1, sg.s0, sg.s1, B, M.gpow B ((vote : ℕ) : Fr)⟩
      = true := by
  rcases hv with rfl | rfl
  · have hgen : generateZKORProof hashToFr M 0 B (M.gpow B ((0 : ℕ) : Fr))
        electionId cSim sSim rReal
      = .ok ⟨M.gpow B rReal, M.gpow B sSim * M.gpow B cSim,
          hashToFr [.gtEl B, .gtEl (M.gpow B rReal),
            .gtEl (M.gpow B sSim * M.gpow B cSim),
            .gtEl (M.gpow B ((0 : ℕ) : Fr)), .strEl electionId] - cSim,
          cSim,
          rReal - (hashToFr [.gtEl B, .gtEl (M.gpow B rReal),
            .gtEl (M.gpow B sSim * M.gpow B cSim),
            .gtEl (M.gpow B ((0 : ℕ) : Fr)), .strEl electionId] - cSim)
              * ((0 : ℕ) : Fr),
          sSim⟩ := rfl
    rw [hgen] at hsg
    injection hsg with h
    subst h
    simp only [verifyORProof, Bool.and_eq_true, beq_iff_eq]
    refine ⟨⟨?_, ?_⟩, ?_⟩
    · rw [Nat.cast_zero, mul_zero, sub_zero, M.gpow_gpow, zero_mul, M.gpow_zero,
        mul_one]
    · trivial
    · rw [Nat.cast_zero]
      ring
  · have hgen : generateZKORProof hashToFr M 1 B (M.gpow B ((1 : ℕ) : Fr))
        electionId cSim sSim rReal
      = .ok ⟨M.gpow B sSim * M.gpow (M.gpow B ((1 : ℕ) : Fr)) cSim,
          M.gpow B rReal,
          cSim,
          hashToFr [.gtEl B,
            .gtEl (M.gpow B sSim * M.gpow (M.gpow B ((1 : ℕ) : Fr)) cSim),
            .gtEl (M.gpow B rReal),
            .gtEl (M.gpow B ((1 : ℕ) : Fr)), .strEl electionId] - cSim,
          sSim,
          rReal - (hashToFr [.gtEl B,
            .gtEl (M.gpow B sSim * M.gpow (M.gpow B ((1 : ℕ) : Fr)) cSim),
            .gtEl (M.gpow B rReal),
            .gtEl (M.gpow B ((1 : ℕ) : Fr)), .strEl electionId] - cSim)
              * ((1 : ℕ) : Fr)⟩ := rfl
    rw [hgen] at hsg
    injection hsg with h
    subst h
    simp only [verifyORProof, Bool.and_eq_true, beq_iff_eq]
    refine ⟨⟨?_, ?_⟩, ?_⟩
    · trivial
    · rw [Nat.cast_one, mul_one, M.gpow_sub_mul]
    · rw [Nat.cast_one]
      ring

/-- Claim C4, witness: a concrete honestly generated OR proof for
vote 1 passes the verifier. -/
theorem claim_C4_witness :
    ((1 = 0 ∨ 1 = 1)
      ∧ generateZKORProof hash5 M5 1 (Multiplicative.ofAdd 1)
          (M5.gpow (Multiplicative.ofAdd 1) ((1 : ℕ) : ZMod 5)) "E" 1 1 2
        = .ok ⟨Multiplicative.ofAdd 2, Multiplicative.ofAdd 2, 1, 4, 1, 3⟩)
    ∧ verifyORProof hash5 M5 "E"
        ⟨Multiplicative.ofAdd 2, Multiplicative.ofAdd 2, 1, 4, 1, 3,
          Multiplicative.ofAdd 1,
          M5.gpow (Multiplicative.ofAdd 1) ((1 : ℕ) : ZMod 5)⟩ = true :=
  ⟨⟨Or.inr rfl, by decide⟩,
    claim_C4_or_proof_complete hash5 M5 (Multiplicative.ofAdd 1) "E" 1 1 1 2
      ⟨Multiplicative.ofAdd 2, Multiplicative.ofAdd 2, 1, 4, 1, 3⟩
      (Or.inr rfl) (by decide)⟩

/-- Claim C10: the inlined `_generateZKORProof` of src/unnamed/part_004
is extensionally equal to `generateZKORProof` of
src/ZKP/generateZKORProof.js: for every vote in 01 and identical
randomness the emitted tuples agree; in particular the final
reassignment of `a1` in the `vote = 1` branch re-produces exactly the
value `base ^ r1` that was hashed. -/
theorem claim_C10_or_generators_agree (hashToFr : List (HashItem Fr GT) → Fr)
    (M : Pairing Fr G1 G2 GT) (vote : ℕ) (base votePart : GT)
    (electionId : String) (cSim sSim rReal : Fr)
    (hv : vote = 0 ∨ vote = 1) :
    genZKORProofInlined hashToFr M vote base votePart electionId cSim sSim rReal
      = generateZKORProof hashToFr M vote base votePart electionId cSim sSim rReal := by
  rcases hv with rfl | rfl
  · rfl
  · show Except.ok _ = Except.ok _
    refine congrArg Except.ok ?_
    congr 1
    rw [Nat.cast_one, mul_one, M.gpow_sub_mul]

/-- Claim C10, witness: the two generators evaluated at a concrete
vote-1 input. -/
theorem claim_C10_witness :
    ((1 = 0 ∨ 1 = 1))
    ∧ genZKORProofInlined hash5 M5 1 (Multiplicative.ofAdd 1)
        (Multiplicative.ofAdd 1) "E" 1 1 2
      = generateZKORProof hash5 M5 1 (Multiplicative.ofAdd 1)
        (Multiplicative.ofAdd 1) "E" 1 1 2 :=
  ⟨Or.inr rfl, claim_C10_or_generators_agree hash5 M5 1
    (Multiplicative.ofAdd 1) (Multiplicative.ofAdd 1) "E" 1 1 2 (Or.inr rfl)⟩

/-- Claim C5: Schnorr-proof completeness.  For every vote in 01, every
election id and every nonce, when `castVote` of the Tlock variant
succeeds it appends exactly one envelope, and that envelope passes the
verification check the tally uses (`base^s * votePart^c == a`), so an
honestly cast ballot is never skipped. -/
theorem claim_C5_schnorr_complete [DecidableEq GT]
    (hashToFr : List (HashItem Fr GT) → Fr) (hashAndMapToG2 : String → G2)
    (M : Pairing Fr G1 G2 GT) (st st2 : TlockState Fr G1 GT)
    (voterId : VoterId) (vote : ℕ) (electionId : ElectionId) (r : Fr)
    (hv : vote = 0 ∨ vote = 1)
    (hok : castVoteTlock hashToFr hashAndMapToG2 M st voterId vote electionId r
      = .ok st2) :
    ∃ env : EnvelopeS Fr GT, st2.ballots = st.ballots ++ [env]
      ∧ verifySchnorrProof hashToFr M env.proof = true := by
  unfold castVoteTlock at hok
  by_cases hreg : st.voters.any (fun p => p.1 == voterId) = false
  · rw [if_pos hreg] at hok
    exact absurd hok (by simp)
  · rw [if_neg hreg] at hok
    have hvote : ¬(vote ≠ 0 ∧ vote ≠ 1) := by
      rcases hv with rfl | rfl <;> simp
    rw [if_neg hvote] at hok
    cases hmg : mapGet st.voters voterId with
    | none =>
      rw [hmg] at hok
      exact absurd hok (by simp)
    | some vr =>
      rw [hmg] at hok
      have hst : ({ st with ballots := st.ballots ++
          [⟨electionId,
            ballotValue M st.g (hashAndMapToG2 electionId) st.voters voterId
              vr.secretKey vote,
            ⟨M.gpow (M.e st.g (hashAndMapToG2 electionId)) r,
              r - hashToFr [.gtEl (M.e st.g (hashAndMapToG2 electionId)),
                .gtEl (M.gpow (M.e st.g (hashAndMapToG2 electionId)) r),
                .gtEl (M.gpow (M.e st.g (hashAndMapToG2 electionId))
                  ((vote : ℕ) : Fr))] * ((vote : ℕ) : Fr),
              M.e st.g (hashAndMapToG2 electionId),
              M.gpow (M.e st.g (hashAndMapToG2 electionId))
                ((vote : ℕ) : Fr)⟩⟩] } : TlockState Fr G1 GT) = st2 := by
        injection hok
      subst hst
      refine ⟨_, rfl, ?_⟩
      simp only [verifySchnorrProof, beq_iff_eq, M.gpow_gpow]
      rw [← M.gpow_add]
      refine congrArg (M.gpow (M.e st.g (hashAndMapToG2 electionId))) ?_
      ring

/-- Claim C5, witness: a concrete cast of vote 1 in the Tlock variant
produces a ballot whose Schnorr proof verifies. -/
theorem claim_C5_witness :
    ((1 = 0 ∨ 1 = 1)
      ∧ castVoteTlock hash5 hashG2five M5 stTlockOne "A" 1 "E" 3 = .ok stTlockCast)
    ∧ ∃ env : EnvelopeS (ZMod 5) GT5,
        stTlockCast.ballots = stTlockOne.ballots ++ [env]
        ∧ verifySchnorrProof hash5 M5 env.proof = true :=
  ⟨⟨Or.inr rfl, by decide⟩,
    claim_C5_schnorr_complete hash5 hashG2five M5 stTlockOne stTlockCast "A" 1 "E" 3
      (Or.inr rfl) (by decide)⟩

/-- Claim C8: invalid votes are rejected before any state change.  For
every state, every registered voter id, every election id and every
vote outside 01, `castVote` of src/builds/NivoteNIZK.js returns the
InvalidVote error; the throw happens before the roster, ballot store or
cast log is touched, which the Except embedding renders as returning no
new state. -/
theorem claim_C8_invalid_vote_rejected [DecidableEq Fr] [DecidableEq GT]
    (hashToFr : List (HashItem Fr GT) → Fr) (hashAndMapToG2 : String → G2)
    (M : Pairing Fr G1 G2 GT) (st : VotingState Fr G1 GT)
    (voterId : VoterId) (vote : ℕ) (electionId : ElectionId)
    (cSim sSim rReal : Fr)
    (hreg : st.voters.any (fun p => p.1 == voterId) = true)
    (h0 : vote ≠ 0) (h1 : vote ≠ 1) :
    castVote hashToFr hashAndMapToG2 M st voterId vote electionId cSim sSim rReal
      = .error .invalidVote := by
  unfold castVote
  rw [hreg]
  simp [h0, h1]

/-- Claim C8, witness: casting vote 2 for a registered voter returns
InvalidVote in the concrete model. -/
theorem claim_C8_witness :
    (stOneVoter.voters.any (fun p => p.1 == "A") = true
      ∧ (2 : ℕ) ≠ 0 ∧ (2 : ℕ) ≠ 1)
    ∧ castVote hash5 hashG2five M5 stOneVoter "A" 2 "E" 0 0 0
      = .error .invalidVote :=
  ⟨by decide,
    claim_C8_invalid_vote_rejected hash5 hashG2five M5 stOneVoter "A" 2 "E" 0 0 0
      (by decide) (by decide) (by decide)⟩

/-- Claim C7, counterexample: re-registering the already-present id in
the concrete one-voter system does not fail (registerVoter has no
failure path at all) and changes the roster: the stored key pair is
replaced by a fresh one. -/
theorem claim_C7_counterexample :
    (registerVoter stOneVoter "A" 2).1.voters ≠ stOneVoter.voters := by
  decide

/-- Claim C7 (amended): `registerVoter` never rejects a duplicate.
Re-registering an existing voter id succeeds and overwrites the stored
key pair in place: the sequence of roster ids (hence the voter's
position and the roster size) is unchanged, the freshly drawn key pair
is now stored under the id, and ballots and cast log are untouched. -/
theorem claim_C7_duplicate_overwrites (st : VotingState Fr G1 GT)
    (voterId : VoterId) (sk : Fr)
    (h : st.voters.any (fun p => p.1 == voterId) = true) :
    ((registerVoter st voterId sk).1.voters.map Prod.fst
        = st.voters.map Prod.fst)
    ∧ mapGet (registerVoter st voterId sk).1.voters voterId
        = some ⟨sk, sk • st.g⟩
    ∧ (registerVoter st voterId sk).1.ballots = st.ballots
    ∧ (registerVoter st voterId sk).1.castLog = st.castLog := by
  have hvoters : (registerVoter st voterId sk).1.voters
      = st.voters.map (fun p =>
          if p.1 == voterId then (voterId, ⟨sk, sk • st.g⟩) else p) := by
    show mapSet st.voters voterId _ = _
    unfold mapSet
    rw [h]
    simp
  refine ⟨?_, ?_, rfl, rfl⟩
  · rw [hvoters, List.map_map]
    refine List.map_congr_left ?_
    intro p hp
    by_cases hpv : p.1 = voterId
    · simp [hpv]
    · simp [hpv]
  · rw [hvoters]
    unfold mapGet
    have hfind : ∀ (m : List (VoterId × VoterRec Fr G1)),
        m.any (fun p => p.1 == voterId) = true →
        (m.map (fun p =>
            if p.1 == voterId then (voterId, ⟨sk, sk • st.g⟩) else p)).find?
          (fun p => p.1 == voterId)
          = some (voterId, ⟨sk, sk • st.g⟩) := by
      intro m
      induction m with
      | nil => intro hm; simp at hm
      | cons q t ih =>
        intro hm
        by_cases hq : q.1 = voterId
        · simp [hq]
        · have ht : t.any (fun p => p.1 == voterId) = true := by
            simpa [hq] using hm
          simpa [hq] using ih ht
    rw [hfind st.voters h]
    rfl

/-- Claim C7, witness: the overwrite behaviour evaluated on the
concrete one-voter system. -/
theorem claim_C7_witness :
    (stOneVoter.voters.any (fun p => p.1 == "A") = true)
    ∧ (((registerVoter stOneVoter "A" 2).1.voters.map Prod.fst
          = stOneVoter.voters.map Prod.fst)
        ∧ mapGet (registerVoter stOneVoter "A" 2).1.voters "A"
            = some ⟨2, 2 • stOneVoter.g⟩
        ∧ (registerVoter stOneVoter "A" 2).1.ballots = stOneVoter.ballots
        ∧ (registerVoter stOneVoter "A" 2).1.castLog = stOneVoter.castLog) :=
  ⟨by decide, claim_C7_duplicate_overwrites stOneVoter "A" 2 (by decide)⟩

/-- Claim C3: the three OR-proof checks of the tally verifier do not
force `votePart` into the set containing 1 and B.  At the concrete
forged transcript `pfForged` (built by simulating both sides, which the
verification equations permit because the second check never mentions
`votePart`), all three checks pass although `votePart = B ^ 2` is
neither `B ^ 0 = 1` nor `B ^ 1 = B`.  This realizes the soundness gap
the spec flags for review in its design notes. -/
theorem claim_C3_or_soundness_fails :
    verifyORProof hash5 M5 "E" pfForged = true
    ∧ pfForged.votePart ≠ M5.gpow pfForged.pairingBase ((0 : ℕ) : ZMod 5)
    ∧ pfForged.votePart ≠ M5.gpow pfForged.pairingBase ((1 : ℕ) : ZMod 5)
    ∧ pfForged.votePart ≠ 1
    ∧ pfForged.votePart ≠ pfForged.pairingBase := by
  decide

theorem dlogSearch_count_iff [DecidableEq GT] (M : Pairing Fr G1 G2 GT)
    (R base : GT) :
    ∀ (fuel i j : ℕ), dlogSearch M R base i fuel = .count j ↔
      (i ≤ j ∧ j < i + fuel ∧ M.gpow base ((j : ℕ) : Fr) = R ∧
        ∀ k, i ≤ k → k < j → M.gpow base ((k : ℕ) : Fr) ≠ R) := by
  intro fuel
  induction fuel with
  | zero =>
    intro i j
    constructor
    · intro h
      exact absurd h (by simp [dlogSearch])
    · rintro ⟨h1, h2, -, -⟩
      omega
  | succ fuel ih =>
    intro i j
    show (if M.gpow base ((i : ℕ) : Fr) = R then TallyResult.count i
        else dlogSearch M R base (i + 1) fuel) = .count j ↔ _
    by_cases hp : M.gpow base ((i : ℕ) : Fr) = R
    · rw [if_pos hp]
      constructor
      · intro h
        have hj : i = j := by
          injection h
        subst hj
        exact ⟨le_refl i, by omega, hp, fun k hk1 hk2 => by omega⟩
      · rintro ⟨h1, h2, hpj, hmin⟩
        have hj : j = i := by
          by_contra hne
          exact (hmin i (le_refl i) (by omega)) hp
        subst hj
        rfl
    · rw [if_neg hp]
      rw [ih (i + 1) j]
      constructor
      · rintro ⟨h1, h2, hpj, hmin⟩
        refine ⟨by omega, by omega, hpj, ?_⟩
        intro k hk1 hk2
        rcases Nat.eq_or_lt_of_le hk1 with he | hk
        · rw [← he]
          exact hp
        · exact hmin k (by omega) hk2
      · rintro ⟨h1, h2, hpj, hmin⟩
        have hij : i ≠ j := by
          rintro rfl
          exact hp hpj
        exact ⟨by omega, by omega, hpj, fun k hk1 hk2 => hmin k (by omega) hk2⟩

theorem dlogSearch_failed_iff [DecidableEq GT] (M : Pairing Fr G1 G2 GT)
    (R base : GT) :
    ∀ (fuel i : ℕ), dlogSearch M R base i fuel = .failed ↔
      ∀ k, i ≤ k → k < i + fuel → M.gpow base ((k : ℕ) : Fr) ≠ R := by
  intro fuel
  induction fuel with
  | zero =>
    intro i
    constructor
    · intro h k hk1 hk2
      omega
    · intro h
      rfl
  | succ fuel ih =>
    intro i
    show (if M.gpow base ((i : ℕ) : Fr) = R then TallyResult.count i
        else dlogSearch M R base (i + 1) fuel) = .failed ↔ _
    by_cases hp : M.gpow base ((i : ℕ) : Fr) = R
    · rw [if_pos hp]
      constructor
      · intro h
        exact absurd h (by simp)
      · intro h
        exact absurd hp (h i (le_refl i) (by omega))
    · rw [if_neg hp]
      rw [ih (i + 1)]
      constructor
      · intro h k hk1 hk2
        rcases Nat.eq_or_lt_of_le hk1 with he | hk
        · rw [← he]
          exact hp
        · exact h k (by omega) (by omega)
      · intro h k hk1 hk2
        exact h k (by omega) (by omega)

/-- Claim C6: discrete-log recovery.  `decryptTally` returns `count j`
exactly when `j` is the smallest index with `0 ≤ j ≤ maxVotes` and
`base ^ j = R`, and returns the `TallyFailed` sentinel exactly when no
index in range matches; being a total function of `TallyResult` type it
always yields an integer in range or the sentinel and never throws. -/
theorem claim_C6_decrypt_tally_correct [DecidableEq GT]
    (M : Pairing Fr G1 G2 GT) (R base : GT) (maxVotes : ℕ) :
    (∀ j, decryptTally M R base maxVotes = .count j ↔
        (j ≤ maxVotes ∧ M.gpow base ((j : ℕ) : Fr) = R ∧
          ∀ k, k < j → M.gpow base ((k : ℕ) : Fr) ≠ R))
    ∧ (decryptTally M R base maxVotes = .failed ↔
        ∀ k, k ≤ maxVotes → M.gpow base ((k : ℕ) : Fr) ≠ R) := by
  constructor
  · intro j
    unfold decryptTally
    rw [dlogSearch_count_iff M R base (maxVotes + 1) 0 j]
    constructor
    · rintro ⟨-, h2, hpj, hmin⟩
      exact ⟨by omega, hpj, fun k hk => hmin k (by omega) hk⟩
    · rintro ⟨h1, hpj, hmin⟩
      exact ⟨by omega, by omega, hpj, fun k _ hk => hmin k hk⟩
  · unfold decryptTally
    rw [dlogSearch_failed_iff M R base (maxVotes + 1) 0]
    constructor
    · intro h k hk
      exact h k (by omega) (by omega)
    · intro h k _ hk
      exact h k (by omega)

/-- Claim C6, witness: the search evaluated at a concrete point,
together with the minimality facts the theorem yields there. -/
theorem claim_C6_witness :
    decryptTally M5 (Multiplicative.ofAdd 2) (Multiplicative.ofAdd 1) 3 = .count 2
    ∧ (2 ≤ 3
        ∧ M5.gpow (Multiplicative.ofAdd 1) ((2 : ℕ) : ZMod 5) = Multiplicative.ofAdd 2
        ∧ ∀ k, k < 2 →
            M5.gpow (Multiplicative.ofAdd 1) ((k : ℕ) : ZMod 5) ≠ Multiplicative.ofAdd 2) :=
  ⟨by decide,
    ((claim_C6_decrypt_tally_correct M5 (Multiplicative.ofAdd 2)
      (Multiplicative.ofAdd 1) 3).1 2).mp (by decide)⟩

theorem encTally_foldl_eq [DecidableEq GT] (hashToFr : List (HashItem Fr GT) → Fr)
    (M : Pairing Fr G1 G2 GT) (l : List (Ballot2 Fr GT)) (acc : GT) :
    l.foldl (fun R b =>
        if verifySchnorrProof hashToFr M b.proof then R * b.ballot else R) acc
      = acc * ((l.filter (fun b => verifySchnorrProof hashToFr M b.proof)).map
          (fun b => b.ballot)).prod := by
  induction l generalizing acc with
  | nil => simp
  | cons b t ih =>
    cases hb : verifySchnorrProof hashToFr M b.proof with
    | true => simp [List.foldl_cons, hb, ih, List.filter_cons, mul_assoc]
    | false => simp [List.foldl_cons, hb, ih, List.filter_cons]

/-- Claim C9: tally order-independence.  For two part_002 states with
the same generator whose ballot lists for an election are permutations
of each other, `encryptTally` returns the same pair (R, base) — the
fold of the verified ballots under GT multiplication from 1 is
permutation-invariant — and therefore `decryptTally` returns the same
result on both. -/
theorem claim_C9_tally_order_independent [DecidableEq GT]
    (hashToFr : List (HashItem Fr GT) → Fr) (hashAndMapToG2 : String → G2)
    (M : Pairing Fr G1 G2 GT) (st1 st2 : Part2State Fr G1 GT)
    (electionId : ElectionId) (maxVotes : ℕ)
    (hg : st2.g = st1.g)
    (hperm : ((mapGet st2.ballots electionId).getD []).Perm
      ((mapGet st1.ballots electionId).getD [])) :
    encryptTally hashToFr hashAndMapToG2 M st2 electionId
        = encryptTally hashToFr hashAndMapToG2 M st1 electionId
    ∧ decryptTally M (encryptTally hashToFr hashAndMapToG2 M st2 electionId).1
        (encryptTally hashToFr hashAndMapToG2 M st2 electionId).2 maxVotes
      = decryptTally M (encryptTally hashToFr hashAndMapToG2 M st1 electionId).1
          (encryptTally hashToFr hashAndMapToG2 M st1 electionId).2 maxVotes := by
  have h2 : encryptTally hashToFr hashAndMapToG2 M st2 electionId
      = (((mapGet st2.ballots electionId).getD []).foldl
          (fun R b =>
            if verifySchnorrProof hashToFr M b.proof then R * b.ballot else R) 1,
         M.e st2.g (hashAndMapToG2 electionId)) := rfl
  have h1 : encryptTally hashToFr hashAndMapToG2 M st1 electionId
      = (((mapGet st1.ballots electionId).getD []).foldl
          (fun R b =>
            if verifySchnorrProof hashToFr M b.proof then R * b.ballot else R) 1,
         M.e st1.g (hashAndMapToG2 electionId)) := rfl
  have henc : encryptTally hashToFr hashAndMapToG2 M st2 electionId
      = encryptTally hashToFr hashAndMapToG2 M st1 electionId := by
    rw [h1, h2, hg]
    refine congrArg (fun R => (R, M.e st1.g (hashAndMapToG2 electionId))) ?_
    rw [encTally_foldl_eq, encTally_foldl_eq]
    refine congrArg (fun z => 1 * z) ?_
    exact ((hperm.filter (fun b => verifySchnorrProof hashToFr M b.proof)).map
      (fun b => b.ballot)).prod_eq
  exact ⟨henc, by rw [henc]⟩

/-- Claim C9, witness: the two concrete part_002 states holding the
same ballots in the two orders produce identical tallies. -/
theorem claim_C9_witness :
    (stPartB.g = stPartA.g
      ∧ ((mapGet stPartB.ballots "E").getD []).Perm
          ((mapGet stPartA.ballots "E").getD []))
    ∧ (encryptTally hash5 hashG2five M5 stPartB "E"
        = encryptTally hash5 hashG2five M5 stPartA "E"
      ∧ decryptTally M5 (encryptTally hash5 hashG2five M5 stPartB "E").1
          (encryptTally hash5 hashG2five M5 stPartB "E").2 4
        = decryptTally M5 (encryptTally hash5 hashG2five M5 stPartA "E").1
            (encryptTally hash5 hashG2five M5 stPartA "E").2 4) :=
  ⟨⟨rfl, by decide⟩,
    claim_C9_tally_order_independent hash5 hashG2five M5 stPartA stPartB "E" 4
      rfl (by decide)⟩

end Nivote
